import Mathlib

/-!
# Verification of the relutech EOL/EOSL scraper pipeline

A shallow embedding of the core pipeline of `relutech_scraper.py` (vendor
discovery from a sitemap, paginated table scraping, robust date parsing to
UTC ISO-8601 strings, and groupby-based dedup/merge), with theorems checking
the repository's specification against the embedded code.

Strings are modelled as lists of characters (`Str`), compared by Unicode
code point exactly as Python compares `str` values; every string operation
used by the source (strip, startswith, slicing, splitting, lexicographic
comparison) is embedded explicitly so that all definitions evaluate inside
the kernel.

External collaborators (the HTTP transport and the HTML/XML parse step) are
passed in as explicit data or functions: a fetched page is a function from
page numbers to extracted rows, a parsed HTML document is a list of table
nodes, a fetched-and-parsed sitemap is an `Except` value carrying the
`<loc>` texts, and the two flexible date-parsing fallbacks (pandas general
parsing, dateutil) are function parameters.
-/

namespace Relutech

/-- A Python string, modelled as its list of characters. -/
abbrev Str := List Char

/-- The characters of a Lean string literal, used to write `Str` constants. -/
def chars (s : String) : Str := s.data

/-- Python `str.isspace` on the characters stripped by `str.strip()`:
space, tab, newline, carriage return. -/
def isSpaceChar (c : Char) : Bool :=
  c.toNat = 32 || c.toNat = 9 || c.toNat = 10 || c.toNat = 13

/-- Python `str.strip()`: drop leading and trailing whitespace. -/
def strip (l : Str) : Str :=
  ((l.dropWhile isSpaceChar).reverse.dropWhile isSpaceChar).reverse

/-- Python `s.startswith(p)`. -/
def startsWithStr : Str → Str → Bool
  | _, [] => true
  | [], _ :: _ => false
  | a :: as, b :: bs => a.toNat = b.toNat && startsWithStr as bs

/-- Python `s.lstrip("/")`. -/
def lstripSlash (l : Str) : Str := l.dropWhile (fun c => c.toNat = 47)

/-- Python `s.split("/", 1)[0]`: the part of `s` before the first `/`
(all of `s` when there is none). -/
def firstSegment (l : Str) : Str := l.takeWhile (fun c => c.toNat ≠ 47)

/-- Python string `<`: lexicographic comparison by code point. -/
def strLtb : Str → Str → Bool
  | [], [] => false
  | [], _ :: _ => true
  | _ :: _, [] => false
  | a :: as, b :: bs =>
    if a.toNat < b.toNat then true
    else if b.toNat < a.toNat then false
    else strLtb as bs

/-- Python string `<=`. -/
def strLeb (a b : Str) : Bool := strLtb a b || decide (a = b)

theorem char_toNat_inj {a b : Char} (h : a.toNat = b.toNat) : a = b := by
  refine Char.ext ?_
  unfold Char.toNat at h
  exact UInt32.toNat.inj h

theorem strLtb_irrefl : ∀ a : Str, strLtb a a = false := by
  intro a
  induction a with
  | nil => rfl
  | cons x xs ih => simp [strLtb, ih]

theorem strLtb_trans :
    ∀ a b c : Str, strLtb a b = true → strLtb b c = true → strLtb a c = true := by
  intro a
  induction a with
  | nil =>
    intro b c hab hbc
    cases b with
    | nil => exact absurd hab (by simp [strLtb])
    | cons y ys =>
      cases c with
      | nil => exact absurd hbc (by simp [strLtb])
      | cons z zs => simp [strLtb]
  | cons x xs ih =>
    intro b c hab hbc
    cases b with
    | nil => exact absurd hab (by simp [strLtb])
    | cons y ys =>
      cases c with
      | nil => exact absurd hbc (by simp [strLtb])
      | cons z zs =>
        rw [strLtb] at hab hbc ⊢
        rcases Nat.lt_trichotomy x.toNat y.toNat with h1 | h1 | h1
        · rcases Nat.lt_trichotomy y.toNat z.toNat with h2 | h2 | h2
          · rw [if_pos (by omega)]
          · rw [if_pos (by omega)]
          · rw [if_neg (by omega), if_pos h2] at hbc
            simp at hbc
        · rw [if_neg (by omega), if_neg (by omega)] at hab
          rcases Nat.lt_trichotomy y.toNat z.toNat with h2 | h2 | h2
          · rw [if_pos (by omega)]
          · rw [if_neg (by omega), if_neg (by omega)] at hbc
            rw [if_neg (by omega), if_neg (by omega)]
            exact ih ys zs hab hbc
          · rw [if_neg (by omega), if_pos h2] at hbc
            simp at hbc
        · rw [if_neg (by omega), if_pos h1] at hab
          simp at hab

theorem strLtb_trichotomy : ∀ a b : Str, strLtb a b = true ∨ a = b ∨ strLtb b a = true := by
  intro a
  induction a with
  | nil =>
    intro b
    cases b with
    | nil => exact Or.inr (Or.inl rfl)
    | cons y ys => exact Or.inl (by simp [strLtb])
  | cons x xs ih =>
    intro b
    cases b with
    | nil => exact Or.inr (Or.inr (by simp [strLtb]))
    | cons y ys =>
      rcases Nat.lt_trichotomy x.toNat y.toNat with hlt | heq | hgt
      · exact Or.inl (by rw [strLtb, if_pos hlt])
      · have hxy : x = y := char_toNat_inj heq
        subst hxy
        rcases ih ys with h | h | h
        · refine Or.inl ?_
          rw [strLtb, if_neg (by omega), if_neg (by omega)]
          exact h
        · exact Or.inr (Or.inl (by rw [h]))
        · refine Or.inr (Or.inr ?_)
          rw [strLtb, if_neg (by omega), if_neg (by omega)]
          exact h
      · refine Or.inr (Or.inr ?_)
        rw [strLtb, if_pos hgt]

theorem strLeb_total : ∀ a b : Str, strLeb a b = true ∨ strLeb b a = true := by
  intro a b
  rcases strLtb_trichotomy a b with h | h | h
  · exact Or.inl (by simp [strLeb, h])
  · exact Or.inl (by simp [strLeb, h])
  · exact Or.inr (by simp [strLeb, h])

theorem strLeb_trans :
    ∀ a b c : Str, strLeb a b = true → strLeb b c = true → strLeb a c = true := by
  intro a b c hab hbc
  simp only [strLeb, Bool.or_eq_true, decide_eq_true_eq] at hab hbc ⊢
  rcases hab with hab | rfl
  · rcases hbc with hbc | rfl
    · exact Or.inl (strLtb_trans a b c hab hbc)
    · exact Or.inl hab
  · exact hbc

/-! ## Sorting

Python's `sorted()` on the vendor set and pandas' `groupby(sort=True)` both
return keys in ascending order. We embed that as an insertion sort by a
boolean `le` and prove the properties the claims need. -/

section Sorting

variable {α : Type} (le : α → α → Bool)

/-- Insert `x` into `l`, before the first element that `x` is `le` to. -/
def insertSorted (x : α) : List α → List α
  | [] => [x]
  | y :: ys => if le x y then x :: y :: ys else y :: insertSorted x ys

/-- Sort a list in ascending `le` order. -/
def insertionSort : List α → List α
  | [] => []
  | x :: xs => insertSorted le x (insertionSort xs)

theorem insertSorted_cons (x y : α) (ys : List α) :
    insertSorted le x (y :: ys) =
      if le x y then x :: y :: ys else y :: insertSorted le x ys := rfl

theorem insertSorted_perm (x : α) (l : List α) :
    List.Perm (insertSorted le x l) (x :: l) := by
  induction l with
  | nil => exact List.Perm.refl _
  | cons y ys ih =>
    rw [insertSorted_cons]
    by_cases h : le x y = true
    · rw [if_pos h]
    · rw [if_neg h]
      exact (List.Perm.cons y ih).trans (List.Perm.swap x y ys)

theorem insertionSort_perm (l : List α) :
    List.Perm (insertionSort le l) l := by
  induction l with
  | nil => exact List.Perm.refl _
  | cons x xs ih =>
    exact (insertSorted_perm le x (insertionSort le xs)).trans (List.Perm.cons x ih)

theorem mem_insertSorted {x a : α} {l : List α} :
    a ∈ insertSorted le x l ↔ a = x ∨ a ∈ l := by
  rw [(insertSorted_perm le x l).mem_iff]
  simp

theorem insertSorted_pairwise (htot : ∀ a b, le a b = true ∨ le b a = true)
    (htrans : ∀ a b c, le a b = true → le b c = true → le a c = true)
    (x : α) (l : List α) (h : List.Pairwise (fun a b => le a b = true) l) :
    List.Pairwise (fun a b => le a b = true) (insertSorted le x l) := by
  induction l with
  | nil => exact List.Pairwise.cons (by simp) List.Pairwise.nil
  | cons y ys ih =>
    rcases List.pairwise_cons.mp h with ⟨hy, hys⟩
    rw [insertSorted_cons]
    by_cases hxy : le x y = true
    · rw [if_pos hxy]
      refine List.pairwise_cons.mpr ⟨?_, h⟩
      intro b hb
      rcases List.mem_cons.mp hb with rfl | hb
      · exact hxy
      · exact htrans x y b hxy (hy b hb)
    · have hyx : le y x = true := (htot x y).resolve_left hxy
      rw [if_neg hxy]
      refine List.pairwise_cons.mpr ⟨?_, ih hys⟩
      intro b hb
      rcases (mem_insertSorted le).mp hb with rfl | hb
      · exact hyx
      · exact hy b hb

theorem insertionSort_pairwise (htot : ∀ a b, le a b = true ∨ le b a = true)
    (htrans : ∀ a b c, le a b = true → le b c = true → le a c = true)
    (l : List α) :
    List.Pairwise (fun a b => le a b = true) (insertionSort le l) := by
  induction l with
  | nil => exact List.Pairwise.nil
  | cons x xs ih => exact insertSorted_pairwise le htot htrans x _ ih

theorem insertionSort_eq_self {l : List α}
    (h : List.Pairwise (fun a b => le a b = true) l) :
    insertionSort le l = l := by
  induction l with
  | nil => rfl
  | cons x xs ih =>
    rcases List.pairwise_cons.mp h with ⟨hx, hxs⟩
    show insertSorted le x (insertionSort le xs) = x :: xs
    rw [ih hxs]
    cases xs with
    | nil => rfl
    | cons y ys => rw [insertSorted_cons, if_pos (hx y (by simp))]

end Sorting

/-! ## Data model -/

/-- One scraped table row before normalization (`fetch_page` output):
cell texts of the first three columns of a body row. -/
structure RawRecord where
  model : Str
  eol_date : Str
  eosl_date : Str
deriving DecidableEq

/-- A record of the post-processed table: uppercase vendor, model, and the
two normalized (ISO-8601 or null) date fields. -/
structure NRecord where
  vendor : Str
  model : Str
  eol_date : Option Str
  eosl_date : Option Str
deriving DecidableEq

/-! ## Paginated vendor scraper (`scrape_vendor_eol_url`)

The page-fetch collaborator is a function from the page number to the rows
its extracted table holds (`fetch_page`'s result for that page). The loop
`while page <= max_pages: df = fetch_page(page); if df.empty: break;
all_dfs.append(df); page += 1` is embedded with the remaining iteration
budget `max_pages - page + 1` as the recursion measure. The result pairs
the concatenated rows with the number of fetches performed. -/

/-- The scraping loop from page `page` with `rem` iterations of budget left:
returns the accumulated rows together with the number of fetches made. -/
def scrapeVendorAux (fetch : Nat → List RawRecord) : Nat → Nat → List RawRecord × Nat
  | _, 0 => ([], 0)
  | page, rem + 1 =>
    let df := fetch page
    if df.isEmpty then ([], 1)
    else
      let r := scrapeVendorAux fetch (page + 1) rem
      (df ++ r.1, r.2 + 1)

/-- `scrape_vendor_eol_url(base_url, max_pages)`: pages start at 1, and the
loop runs while `page <= max_pages`, stopping early at the first page whose
extracted table is empty. -/
def scrape_vendor_eol_url (fetch : Nat → List RawRecord) (max_pages : Nat) :
    List RawRecord × Nat :=
  scrapeVendorAux fetch 1 max_pages

/-- The concatenation, in page order, of pages `page, page+1, ..., page+n-1`. -/
def concatPages (fetch : Nat → List RawRecord) (page : Nat) : Nat → List RawRecord
  | 0 => []
  | n + 1 => fetch page ++ concatPages fetch (page + 1) n

theorem scrapeVendorAux_first_empty (fetch : Nat → List RawRecord) :
    ∀ (d page rem : Nat), d < rem → fetch (page + d) = [] →
      (∀ i, page ≤ i → i < page + d → fetch i ≠ []) →
      scrapeVendorAux fetch page rem = (concatPages fetch page d, d + 1) := by
  intro d
  induction d with
  | zero =>
    intro page rem hlt hempty _
    obtain ⟨r, rfl⟩ : ∃ r, rem = r + 1 := ⟨rem - 1, by omega⟩
    show (if (fetch page).isEmpty then _ else _) = _
    rw [if_pos (by simp [show fetch page = [] from hempty])]
    rfl
  | succ d ih =>
    intro page rem hlt hempty hne
    obtain ⟨r, rfl⟩ : ∃ r, rem = r + 1 := ⟨rem - 1, by omega⟩
    have hpage : fetch page ≠ [] := hne page (Nat.le_refl _) (by omega)
    show (if (fetch page).isEmpty then _ else _) = _
    rw [if_neg (by simpa [List.isEmpty_iff] using hpage)]
    have hrec := ih (page + 1) r (by omega)
      (by rw [show page + 1 + d = page + (d + 1) by omega]; exact hempty)
      (fun i h1 h2 => hne i (by omega) (by omega))
    rw [hrec]
    rfl

theorem scrapeVendorAux_all_nonempty (fetch : Nat → List RawRecord) :
    ∀ (rem page : Nat), (∀ i, page ≤ i → i < page + rem → fetch i ≠ []) →
      scrapeVendorAux fetch page rem = (concatPages fetch page rem, rem) := by
  intro rem
  induction rem with
  | zero => intro page _; rfl
  | succ r ih =>
    intro page hne
    have hpage : fetch page ≠ [] := hne page (Nat.le_refl _) (by omega)
    show (if (fetch page).isEmpty then _ else _) = _
    rw [if_neg (by simpa [List.isEmpty_iff] using hpage)]
    rw [ih (page + 1) (fun i h1 h2 => hne i (by omega) (by omega))]
    rfl

/-- Example pages: pages 1-3 each hold one row, page 4 onwards is empty. -/
def examplePages (page : Nat) : List RawRecord :=
  if page ≤ 3 then [⟨[Char.ofNat (48 + page)], chars "Aug 31, 2022", chars ""⟩] else []

/-- Example pages that are never empty (a site echoing content forever). -/
def endlessPages (page : Nat) : List RawRecord :=
  [⟨[Char.ofNat (48 + page)], chars "", chars ""⟩]

/-! ## Table extractor (`fetch_page`)

The parsed document is the list of its `<table>` nodes in document order.
A table node carries the (already text-extracted) contents of its `<th>`
cells and, when the table has a `<tbody>` element, the cell texts of that
element's `<tr>` rows. `table.find("tbody")` returns `None` when there is
no `<tbody>`, and the source immediately calls `.find_all("tr")` on that
result, which raises an `AttributeError`; the embedding records that as an
`Except.error`. -/

structure HtmlTable where
  headers : List Str
  tbody : Option (List (List Str))
deriving DecidableEq

/-- The three column labels the header cell text set must include. -/
def requiredLabels : List Str := [chars "Model", chars "EOL Date", chars "EOSL Date"]

/-- `{"Model", "EOL Date", "EOSL Date"}.issubset(set(header_cells))` with
`header_cells = [th.get_text(strip=True) for th in t.find_all("th")]`. -/
def headerMatches (t : HtmlTable) : Bool :=
  requiredLabels.all (fun lbl => (t.headers.map strip).any (fun h => decide (h = lbl)))

/-- One `<tr>` of the body: skipped when it has fewer than four `<td>`
cells, otherwise the stripped texts of the first three cells. -/
def extractRow (tds : List Str) : Option RawRecord :=
  match tds with
  | m :: eol :: eosl :: _ :: _ => some ⟨strip m, strip eol, strip eosl⟩
  | _ => none

/-- The extraction part of `fetch_page`: find the first table whose header
cells include the three labels; none found means an empty row set; a found
table without a `<tbody>` makes `table.find("tbody").find_all("tr")` raise. -/
def fetch_page (doc : List HtmlTable) : Except Str (List RawRecord) :=
  match doc.find? headerMatches with
  | none => Except.ok []
  | some t =>
    match t.tbody with
    | none => Except.error (chars "AttributeError")
    | some trs => Except.ok (trs.filterMap extractRow)

def isOkB {ε α : Type} : Except ε α → Bool
  | Except.ok _ => true
  | Except.error _ => false

/-! ## Vendor discoverer (`get_unique_eol_vendors`)

The fetched-and-parsed sitemap is an `Except`: an `Except.error` stands for
any exception raised while fetching or parsing (network failure, non-2xx
status, malformed XML), and an `Except.ok` carries, for each `<url>` entry,
the text of its `<loc>` element (`none` when the element is missing or its
text is empty, which the loop skips). -/

def BASE_PATH : Str := chars "https://relutech.com/eol-eosl/"

def fallback_vendors : List Str :=
  [chars "cisco", chars "dell", chars "emc", chars "emc-ecomm", chars "hpe",
   chars "ibm", chars "juniper", chars "netapp-ecomm", chars "nimble",
   chars "sun-oracle"]

/-- One iteration of the sitemap loop: the vendor identifier one `<loc>`
text contributes, or `none` when the entry is skipped. -/
def childOf : Option Str → Option Str
  | none => none
  | some txt =>
    if txt = [] then none
    else
      let loc := strip txt
      if startsWithStr loc BASE_PATH then
        let tail := lstripSlash (loc.drop BASE_PATH.length)
        if tail = [] then none
        else
          let child := firstSegment tail
          if child = [] then none else some child
      else none

/-- The `children` set built by the loop (a set: duplicates collapse). -/
def collectChildren (locs : List (Option Str)) : List Str :=
  (locs.filterMap childOf).dedup

/-- `get_unique_eol_vendors()`: sorted children when parsing succeeded and
found at least one vendor, the hardcoded fallback list otherwise. -/
def get_unique_eol_vendors (sitemap : Except Str (List (Option Str))) : List Str :=
  match sitemap with
  | Except.error _ => fallback_vendors
  | Except.ok locs =>
    let children := collectChildren locs
    if children.isEmpty then fallback_vendors
    else insertionSort strLeb children

/-! ## Date normalizer (`parse_date_robust` and `convert_to_utc_iso`)

A parsed timestamp carries a calendar date, a time of day, and an optional
timezone offset in minutes (`none` = naive). The two strict format
strategies (`"%b %d, %Y"` and `"%B %d, %Y"`) are embedded in full; the two
flexible fallbacks (pandas general parsing and `dateutil`) are external
function parameters, exactly as the source guards the latter behind
`HAS_DATEUTIL`. -/

structure Timestamp where
  year : Int
  month : Nat
  day : Nat
  hour : Nat
  minute : Nat
  second : Nat
  tzOffsetMinutes : Option Int
deriving DecidableEq

def monthAbbrevs : List Str :=
  [chars "Jan", chars "Feb", chars "Mar", chars "Apr", chars "May", chars "Jun",
   chars "Jul", chars "Aug", chars "Sep", chars "Oct", chars "Nov", chars "Dec"]

def monthFulls : List Str :=
  [chars "January", chars "February", chars "March", chars "April", chars "May",
   chars "June", chars "July", chars "August", chars "September", chars "October",
   chars "November", chars "December"]

def isLeapYear (y : Int) : Bool := y % 4 = 0 && (y % 100 ≠ 0 || y % 400 = 0)

def daysInMonth (y : Int) (m : Nat) : Nat :=
  if m = 2 then (if isLeapYear y then 29 else 28)
  else if m = 4 || m = 6 || m = 9 || m = 11 then 30
  else 31

def isDigitChar (c : Char) : Bool := 48 ≤ c.toNat && c.toNat ≤ 57

def digitsToNat (l : Str) : Nat := l.foldl (fun acc c => acc * 10 + (c.toNat - 48)) 0

/-- Days from 1970-01-01 to year/month/day (proleptic Gregorian). -/
def daysFromCivil (y : Int) (m d : Nat) : Int :=
  let yy : Int := if m ≤ 2 then y - 1 else y
  let era : Int := (if 0 ≤ yy then yy else yy - 399) / 400
  let yoe : Int := yy - era * 400
  let mp : Int := (m : Int) + (if 2 < m then -3 else 9)
  let doy : Int := (153 * mp + 2) / 5 + (d : Int) - 1
  let doe : Int := yoe * 365 + yoe / 4 - yoe / 100 + doy
  era * 146097 + doe - 719468

/-- A pandas `Timestamp` is a signed 64-bit count of nanoseconds since the
epoch, so `pd.to_datetime(..., format=..., errors="coerce")` yields `NaT`
(not a timestamp) for any date whose midnight is outside that range —
roughly before 1677-09-22 or after 2262-04-11. -/
def inTimestampBounds (y : Int) (m d : Nat) : Bool :=
  let ns : Int := daysFromCivil y m d * 86400000000000
  decide (-9223372036854775808 ≤ ns) && decide (ns ≤ 9223372036854775807)

/-- After the month name and its following space: parse `"<day>, <year>"`
with a 1-2 digit day, the literal `", "`, a 4-digit year, and nothing after;
the day must exist in that month (`strptime` rejects e.g. `"Feb 30, 2022"`)
and the date must be representable as a pandas nanosecond `Timestamp`
(`errors="coerce"` turns e.g. `"Jan 1, 1300"` into `NaT`, i.e. no result).
The result is a naive midnight timestamp. -/
def parseDayCommaYear (month : Nat) (rest : Str) : Option Timestamp :=
  let dayDigits := rest.takeWhile isDigitChar
  let rest1 := rest.drop dayDigits.length
  if dayDigits.length = 0 || 2 < dayDigits.length then none
  else if rest1.take 2 ≠ [Char.ofNat 44, Char.ofNat 32] then none
  else
    let yearDigits := rest1.drop 2
    if yearDigits.length = 4 && yearDigits.all isDigitChar then
      let day := digitsToNat dayDigits
      let year : Int := digitsToNat yearDigits
      if (1 ≤ day && day ≤ daysInMonth year month)
          && inTimestampBounds year month day then
        some ⟨year, month, day, 0, 0, 0, none⟩
      else none
    else none

/-- Shape-only test that `"<day>, <year>"` matches the tail of the
`"%b %d, %Y"` / `"%B %d, %Y"` formats: like `parseDayCommaYear` but without
the pandas representability bounds, so it also accepts well-formed dates
whose year `pd.to_datetime` cannot represent. -/
def matchesDayCommaYear (month : Nat) (rest : Str) : Bool :=
  let dayDigits := rest.takeWhile isDigitChar
  let rest1 := rest.drop dayDigits.length
  if dayDigits.length = 0 || 2 < dayDigits.length then false
  else if rest1.take 2 ≠ [Char.ofNat 44, Char.ofNat 32] then false
  else
    let yearDigits := rest1.drop 2
    if yearDigits.length = 4 && yearDigits.all isDigitChar then
      let day := digitsToNat dayDigits
      let year : Int := digitsToNat yearDigits
      1 ≤ day && day ≤ daysInMonth year month
    else false

/-- Find the month whose name (followed by a space) opens `s`; `idx` is the
number of the first name in `names`. Returns the month number and the text
after the space. -/
def findMonth : Nat → List Str → Str → Option (Nat × Str)
  | _, [], _ => none
  | idx, name :: rest, s =>
    if startsWithStr s (name ++ [' ']) then some (idx, s.drop (name.length + 1))
    else findMonth (idx + 1) rest s

/-- Parse a date in month-name-first format (`"%b %d, %Y"` with `monthAbbrevs`,
`"%B %d, %Y"` with `monthFulls`). -/
def parseMonthNameDate (names : List Str) (s : Str) : Option Timestamp :=
  match findMonth 1 names s with
  | none => none
  | some (m, rest) => parseDayCommaYear m rest

/-- Shape-only test that `s` matches the month-name-first format textually
(month name, space, valid day of month, `", "`, 4-digit year) — the strings
the claim's "matching the format" covers, including years the program's
strict strategies coerce to `NaT`. -/
def matchesMonthNameFormat (names : List Str) (s : Str) : Bool :=
  match findMonth 1 names s with
  | none => false
  | some (m, rest) => matchesDayCommaYear m rest

/-- `parse_date_robust(date_str)`: null-and-blank guard, then the ordered
strategies — abbreviated month format, full month format, pandas flexible
parsing (`flexParse`), dateutil (`dateutilParse`) — first success wins. -/
def parse_date_robust (flexParse dateutilParse : Str → Option Timestamp) :
    Option Str → Option Timestamp
  | none => none
  | some s0 =>
    if s0 = [] ∨ strip s0 = [] then none
    else
      let s := strip s0
      match parseMonthNameDate monthAbbrevs s with
      | some dt => some dt
      | none =>
        match parseMonthNameDate monthFulls s with
        | some dt => some dt
        | none =>
          match flexParse s with
          | some dt => some dt
          | none => dateutilParse s

/-- Decimal digits of `n` (the first argument is fuel, always sufficient at
`fuel = n`). -/
def natDigitsAux : Nat → Nat → Str
  | 0, _ => []
  | fuel + 1, n =>
    if n = 0 then [] else natDigitsAux fuel (n / 10) ++ [Char.ofNat (48 + n % 10)]

/-- `n` in decimal, zero-padded on the left to `width` characters. -/
def padNat (width n : Nat) : Str :=
  let ds := if n = 0 then [Char.ofNat 48] else natDigitsAux n n
  List.replicate (width - ds.length) (Char.ofNat 48) ++ ds

/-- The `+HH:MM` / `-HH:MM` suffix `datetime.isoformat()` renders for an
aware value; naive values get no suffix. -/
def isoOffset : Option Int → Str
  | none => []
  | some off =>
    let sign := if off < 0 then Char.ofNat 45 else Char.ofNat 43
    let a := off.natAbs
    sign :: (padNat 2 (a / 60) ++ [':'] ++ padNat 2 (a % 60))

/-- `datetime.isoformat()`: `YYYY-MM-DDTHH:MM:SS` plus the offset suffix. -/
def isoformat (t : Timestamp) : Str :=
  (padNat 4 t.year.natAbs ++ [Char.ofNat 45] ++ padNat 2 t.month ++ [Char.ofNat 45]
      ++ padNat 2 t.day ++ [Char.ofNat 84] ++ padNat 2 t.hour ++ [':']
      ++ padNat 2 t.minute ++ [':'] ++ padNat 2 t.second)
    ++ isoOffset t.tzOffsetMinutes

/-- Year/month/day from days since 1970-01-01 (inverse of `daysFromCivil`). -/
def civilFromDays (z0 : Int) : Int × Nat × Nat :=
  let z := z0 + 719468
  let era : Int := (if 0 ≤ z then z else z - 146096) / 146097
  let doe : Int := z - era * 146097
  let yoe : Int := (doe - doe / 1460 + doe / 36524 - doe / 146096) / 365
  let y : Int := yoe + era * 400
  let doy : Int := doe - (365 * yoe + yoe / 4 - yoe / 100)
  let mp : Int := (5 * doy + 2) / 153
  let d : Int := doy - (153 * mp + 2) / 5 + 1
  let m : Int := mp + (if mp < 10 then 3 else -9)
  (if m ≤ 2 then y + 1 else y, m.toNat, d.toNat)

/-- Minutes from the epoch to the timestamp's wall-clock date and time. -/
def toEpochMinutes (t : Timestamp) : Int :=
  daysFromCivil t.year t.month t.day * 1440 + (t.hour : Int) * 60 + (t.minute : Int)

/-- Rebuild a timestamp from minutes since the epoch (seconds unchanged:
timezone offsets are whole minutes). -/
def fromEpochMinutes (mins : Int) (sec : Nat) (tz : Option Int) : Timestamp :=
  let days := Int.fdiv mins 1440
  let rem := (Int.fmod mins 1440).toNat
  let c := civilFromDays days
  ⟨c.1, c.2.1, c.2.2, rem / 60, rem % 60, sec, tz⟩

/-- `x.astimezone(timezone.utc)` for an aware value with offset `off`. -/
def astimezoneUTC (t : Timestamp) (off : Int) : Timestamp :=
  fromEpochMinutes (toEpochMinutes t - off) t.second (some 0)

/-- `convert_to_utc_iso(x)`: null stays null; a naive value is assumed to
be UTC and tagged with the UTC offset; an aware value is converted to UTC;
the result is rendered by `isoformat`. -/
def convert_to_utc_iso : Option Timestamp → Option Str
  | none => none
  | some x =>
    match x.tzOffsetMinutes with
    | none =>
      some (isoformat ⟨x.year, x.month, x.day, x.hour, x.minute, x.second, some 0⟩)
    | some off => some (isoformat (astimezoneUTC x off))

/-- The Date Normalizer: `parse_date_robust` then `convert_to_utc_iso`, the
composition `post_process_eol_df` applies to each date column. -/
def normalize (flexParse dateutilParse : Str → Option Timestamp)
    (raw : Option Str) : Option Str :=
  convert_to_utc_iso (parse_date_robust flexParse dateutilParse raw)

/-! ## Dedup/merge engine (`remove_duplicates_and_merge`)

`df.groupby(["vendor", "model"]).agg(...)` groups rows by the (vendor,
model) pair, keeps each group's rows in their original order, aggregates the
date columns with `first_non_null`, and — `groupby` sorting its keys
ascending by default — emits one row per key in ascending lexicographic key
order (Python tuple comparison of code-point-ordered strings). -/

/-- `first_non_null(series)`: the first value that is non-null and whose
text is non-blank after stripping; null when there is none. -/
def first_non_null : List (Option Str) → Option Str
  | [] => none
  | v :: rest =>
    match v with
    | some s => if strip s = [] then first_non_null rest else some s
    | none => first_non_null rest

/-- Does `first_non_null` accept this value? -/
def isGoodVal : Option Str → Bool
  | none => false
  | some s => decide (strip s ≠ [])

/-- The (vendor, model) grouping key. -/
def recordKey (r : NRecord) : Str × Str := (r.vendor, r.model)

/-- Ascending order on grouping keys: Python tuple comparison. -/
def keyLE (a b : Str × Str) : Bool :=
  if a.1 = b.1 then strLeb a.2 b.2 else strLtb a.1 b.1

/-- The distinct grouping keys of the frame, in the ascending order
`groupby(sort=True)` emits them. -/
def groupKeys (rs : List NRecord) : List (Str × Str) :=
  insertionSort keyLE ((rs.map recordKey).dedup)

/-- One group's members, in their original row order. -/
def group (rs : List NRecord) (k : Str × Str) : List NRecord :=
  rs.filter (fun r => decide (recordKey r = k))

/-- The aggregated row of one group: the key columns restored by
`reset_index()`, each date column reduced by `first_non_null`. -/
def mergeGroup (k : Str × Str) (grp : List NRecord) : NRecord :=
  ⟨k.1, k.2, first_non_null (grp.map (fun r => r.eol_date)),
    first_non_null (grp.map (fun r => r.eosl_date))⟩

/-- `remove_duplicates_and_merge(df)`. -/
def remove_duplicates_and_merge (rs : List NRecord) : List NRecord :=
  (groupKeys rs).map (fun k => mergeGroup k (group rs k))

/-! ## Order properties of the grouping key -/

theorem keyLE_total : ∀ a b : Str × Str, keyLE a b = true ∨ keyLE b a = true := by
  intro a b
  by_cases h : a.1 = b.1
  · rw [keyLE, if_pos h, keyLE, if_pos h.symm]
    exact strLeb_total a.2 b.2
  · rw [keyLE, if_neg h, keyLE, if_neg (fun hh => h hh.symm)]
    rcases strLtb_trichotomy a.1 b.1 with hl | he | hg
    · exact Or.inl hl
    · exact absurd he h
    · exact Or.inr hg

theorem keyLE_trans :
    ∀ a b c : Str × Str, keyLE a b = true → keyLE b c = true → keyLE a c = true := by
  intro a b c hab hbc
  rw [keyLE] at hab hbc ⊢
  by_cases h1 : a.1 = b.1
  · rw [if_pos h1] at hab
    by_cases h2 : b.1 = c.1
    · rw [if_pos h2] at hbc
      rw [if_pos (h1.trans h2)]
      exact strLeb_trans _ _ _ hab hbc
    · rw [if_neg h2] at hbc
      rw [if_neg (by rw [h1]; exact h2), h1]
      exact hbc
  · rw [if_neg h1] at hab
    by_cases h2 : b.1 = c.1
    · rw [if_neg (by rw [← h2]; exact h1), ← h2]
      exact hab
    · rw [if_neg h2] at hbc
      have hne : a.1 ≠ c.1 := by
        intro he
        rw [he] at hab
        have hcc := strLtb_trans _ _ _ hab hbc
        rw [strLtb_irrefl] at hcc
        exact Bool.false_ne_true hcc
      rw [if_neg hne]
      exact strLtb_trans _ _ _ hab hbc

/-! ## Structure of the dedup/merge output -/

theorem first_non_null_cons_some (s : Str) (rest : List (Option Str)) :
    first_non_null (some s :: rest)
      = if strip s = [] then first_non_null rest else some s := rfl

theorem first_non_null_cons_none (rest : List (Option Str)) :
    first_non_null (none :: rest) = first_non_null rest := rfl

theorem first_non_null_good :
    ∀ (vals : List (Option Str)) (s : Str),
      first_non_null vals = some s → strip s ≠ [] := by
  intro vals
  induction vals with
  | nil => intro s h; cases h
  | cons v rest ih =>
    intro s h
    cases v with
    | none => exact ih s h
    | some sv =>
      rw [first_non_null_cons_some] at h
      by_cases hsv : strip sv = []
      · rw [if_pos hsv] at h
        exact ih s h
      · rw [if_neg hsv] at h
        cases h
        exact hsv

theorem first_non_null_stable (vals : List (Option Str)) :
    first_non_null [first_non_null vals] = first_non_null vals := by
  cases h : first_non_null vals with
  | none => rfl
  | some s =>
    rw [first_non_null_cons_some, if_neg (first_non_null_good vals s h)]

theorem recordKey_mergeGroup (k : Str × Str) (grp : List NRecord) :
    recordKey (mergeGroup k grp) = k := Prod.mk.eta

theorem map_recordKey_output (rs : List NRecord) :
    (remove_duplicates_and_merge rs).map recordKey = groupKeys rs := by
  rw [remove_duplicates_and_merge, List.map_map]
  have h : (recordKey ∘ fun k => mergeGroup k (group rs k)) = id := by
    funext k
    exact recordKey_mergeGroup k _
  rw [h, List.map_id]

theorem groupKeys_nodup (rs : List NRecord) : (groupKeys rs).Nodup :=
  ((insertionSort_perm keyLE _).nodup_iff).mpr (List.nodup_dedup _)

theorem mem_groupKeys {rs : List NRecord} {k : Str × Str} :
    k ∈ groupKeys rs ↔ k ∈ rs.map recordKey := by
  rw [groupKeys, (insertionSort_perm keyLE _).mem_iff, List.mem_dedup]

theorem groupKeys_pairwise (rs : List NRecord) :
    List.Pairwise (fun a b => keyLE a b = true) (groupKeys rs) :=
  insertionSort_pairwise keyLE keyLE_total keyLE_trans _

theorem filter_eq_singleton_of_nodup {α : Type} [DecidableEq α] :
    ∀ (l : List α) (a : α), l.Nodup → a ∈ l →
      l.filter (fun x => decide (x = a)) = [a] := by
  intro l a
  induction l with
  | nil => intro _ h; cases h
  | cons x xs ih =>
    intro hnd hmem
    rcases List.nodup_cons.mp hnd with ⟨hx, hxs⟩
    rcases List.mem_cons.mp hmem with rfl | hmem'
    · rw [List.filter_cons_of_pos (by simp)]
      have hnone : xs.filter (fun y => decide (y = a)) = [] := by
        rw [List.filter_eq_nil_iff]
        intro b hb
        simp only [decide_eq_true_eq]
        intro hba
        rw [hba] at hb
        exact hx hb
      rw [hnone]
    · rw [List.filter_cons_of_neg]
      · exact ih hxs hmem'
      · simp only [decide_eq_true_eq]
        intro hxa
        rw [hxa] at hx
        exact hx hmem'

theorem group_output (rs : List NRecord) (k : Str × Str) (hk : k ∈ groupKeys rs) :
    group (remove_duplicates_and_merge rs) k = [mergeGroup k (group rs k)] := by
  rw [group, remove_duplicates_and_merge, List.filter_map]
  have hcong : ∀ k2 ∈ groupKeys rs,
      ((fun r => decide (recordKey r = k)) ∘ fun k3 => mergeGroup k3 (group rs k3)) k2
        = (fun x => decide (x = k)) k2 := by
    intro k2 _
    simp only [Function.comp, recordKey_mergeGroup]
  rw [List.filter_congr hcong]
  rw [filter_eq_singleton_of_nodup _ k (groupKeys_nodup rs) hk]
  rfl

theorem groupKeys_output (rs : List NRecord) :
    groupKeys (remove_duplicates_and_merge rs) = groupKeys rs := by
  rw [groupKeys, map_recordKey_output,
    List.dedup_eq_self.mpr (groupKeys_nodup rs),
    insertionSort_eq_self keyLE (groupKeys_pairwise rs)]

/-! ## Properties of the strict date strategies -/

theorem parseDayCommaYear_naive (m : Nat) (rest : Str) (t : Timestamp)
    (h : parseDayCommaYear m rest = some t) : t.tzOffsetMinutes = none := by
  simp only [parseDayCommaYear] at h
  split at h
  · cases h
  · split at h
    · cases h
    · split at h
      · split at h
        · injection h with h2
          rw [← h2]
        · cases h
      · cases h

theorem parseMonthNameDate_naive (names : List Str) (s : Str) (t : Timestamp)
    (h : parseMonthNameDate names s = some t) : t.tzOffsetMinutes = none := by
  unfold parseMonthNameDate at h
  split at h
  · cases h
  · exact parseDayCommaYear_naive _ _ _ h

theorem convert_naive (x : Timestamp) (h : x.tzOffsetMinutes = none) :
    convert_to_utc_iso (some x)
      = some (isoformat ⟨x.year, x.month, x.day, x.hour, x.minute, x.second, some 0⟩) := by
  show (match x.tzOffsetMinutes with
    | none =>
      some (isoformat ⟨x.year, x.month, x.day, x.hour, x.minute, x.second, some 0⟩)
    | some off => some (isoformat (astimezoneUTC x off))) = _
  rw [h]

theorem isoformat_utc_suffix (x : Timestamp) (h : x.tzOffsetMinutes = some 0) :
    ∃ p : Str, isoformat x = p ++ chars "+00:00" := by
  refine ⟨padNat 4 x.year.natAbs ++ [Char.ofNat 45] ++ padNat 2 x.month
      ++ [Char.ofNat 45] ++ padNat 2 x.day ++ [Char.ofNat 84] ++ padNat 2 x.hour
      ++ [':'] ++ padNat 2 x.minute ++ [':'] ++ padNat 2 x.second, ?_⟩
  rw [isoformat, h]
  rfl

/-! ## Characterization of `first_non_null` -/

theorem first_non_null_of_all_bad :
    ∀ vals : List (Option Str), (∀ v ∈ vals, isGoodVal v = false) →
      first_non_null vals = none := by
  intro vals
  induction vals with
  | nil => intro _; rfl
  | cons v rest ih =>
    intro h
    have hv := h v (by simp)
    cases v with
    | none =>
      rw [first_non_null_cons_none]
      exact ih (fun w hw => h w (by simp [hw]))
    | some s =>
      have hs : strip s = [] := by simpa [isGoodVal] using hv
      rw [first_non_null_cons_some, if_pos hs]
      exact ih (fun w hw => h w (by simp [hw]))

theorem first_non_null_finds_first :
    ∀ vals : List (Option Str), (∃ v ∈ vals, isGoodVal v = true) →
      ∃ s : Str, vals.find? isGoodVal = some (some s) ∧
        first_non_null vals = some s ∧ strip s ≠ [] := by
  intro vals
  induction vals with
  | nil =>
    rintro ⟨v, hv, _⟩
    cases hv
  | cons v rest ih =>
    intro hex
    by_cases hv : isGoodVal v = true
    · cases v with
      | none => simp [isGoodVal] at hv
      | some s =>
        have hs : strip s ≠ [] := by simpa [isGoodVal] using hv
        refine ⟨s, ?_, ?_, hs⟩
        · rw [List.find?_cons_of_pos _ hv]
        · rw [first_non_null_cons_some, if_neg hs]
    · have hex2 : ∃ w ∈ rest, isGoodVal w = true := by
        rcases hex with ⟨w, hw, hgw⟩
        rcases List.mem_cons.mp hw with rfl | hw2
        · exact absurd hgw hv
        · exact ⟨w, hw2, hgw⟩
      rcases ih hex2 with ⟨s, h1, h2, h3⟩
      refine ⟨s, ?_, ?_, h3⟩
      · rw [List.find?_cons_of_neg _ hv, h1]
      · cases v with
        | none => rw [first_non_null_cons_none]; exact h2
        | some sv =>
          have hsv : strip sv = [] := by
            by_contra hne
            exact hv (by simpa [isGoodVal] using hne)
          rw [first_non_null_cons_some, if_pos hsv]
          exact h2

/-! ## Example inputs used by the claim theorems -/

/-- Sitemap `<loc>` texts: two vendor-section URLs and one unrelated URL. -/
def exampleSitemapLocs : List (Option Str) :=
  [some (chars "https://relutech.com/eol-eosl/cisco/page2"),
   some (chars "https://relutech.com/eol-eosl/dell/"),
   some (chars "https://relutech.com/company/about-us")]

/-- Same sitemap with a second page of the same vendor (duplicates collapse). -/
def exampleSitemapLocsDup : List (Option Str) :=
  [some (chars "https://relutech.com/eol-eosl/cisco/page2"),
   some (chars "https://relutech.com/eol-eosl/dell/"),
   some (chars "https://relutech.com/eol-eosl/cisco/page3"),
   some (chars "https://relutech.com/company/about-us")]

def exA : NRecord :=
  ⟨chars "CISCO", chars "A100", some (chars "2020-08-01T00:00:00+00:00"), none⟩

def exB : NRecord :=
  ⟨chars "IBM", chars "Z900", none, some (chars "2021-09-01T00:00:00+00:00")⟩

/-! ## The claims -/

/-- C1: for every vendor section and every `max_pages >= 1`, the paginated
scraper fetches pages 1, 2, ... in order and stops at the first page whose
extracted table is empty or once `page` exceeds `max_pages`, returning the
concatenation of the non-empty pages' rows in page order. First conjunct:
when page `k` (`1 <= k <= max_pages`) is the first empty page, the scraper
performs exactly `k` fetches and returns pages `1..k-1` concatenated.
Second conjunct: when no page up to `max_pages` is empty, it performs
exactly `max_pages` fetches and returns pages `1..max_pages` concatenated.
Third conjunct: with 3 non-empty pages followed by an empty page 4 it
performs exactly 4 fetches and returns exactly the rows of pages 1-3.
Fourth conjunct: with `max_pages = 2` and pages that never return empty it
performs exactly 2 fetches and returns page 1 + page 2 rows only. -/
theorem scrape_vendor_pagination :
    (∀ (fetch : Nat → List RawRecord) (max_pages k : Nat),
        1 ≤ k → k ≤ max_pages → fetch k = [] →
        (∀ i, 1 ≤ i → i < k → fetch i ≠ []) →
        scrape_vendor_eol_url fetch max_pages = (concatPages fetch 1 (k - 1), k)) ∧
    (∀ (fetch : Nat → List RawRecord) (max_pages : Nat), 1 ≤ max_pages →
        (∀ i, 1 ≤ i → i ≤ max_pages → fetch i ≠ []) →
        scrape_vendor_eol_url fetch max_pages
          = (concatPages fetch 1 max_pages, max_pages)) ∧
    scrape_vendor_eol_url examplePages 50
      = ([⟨chars "1", chars "Aug 31, 2022", []⟩, ⟨chars "2", chars "Aug 31, 2022", []⟩,
          ⟨chars "3", chars "Aug 31, 2022", []⟩], 4) ∧
    scrape_vendor_eol_url endlessPages 2
      = ([⟨chars "1", [], []⟩, ⟨chars "2", [], []⟩], 2) := by
  refine ⟨?_, ?_, rfl, rfl⟩
  · intro fetch max_pages k hk hkm hempty hne
    have h := scrapeVendorAux_first_empty fetch (k - 1) 1 max_pages (by omega)
      (by rw [show 1 + (k - 1) = k by omega]; exact hempty)
      (fun i hi1 hi2 => hne i hi1 (by omega))
    unfold scrape_vendor_eol_url
    rw [h, show k - 1 + 1 = k by omega]
  · intro fetch max_pages h1 hne
    unfold scrape_vendor_eol_url
    exact scrapeVendorAux_all_nonempty fetch max_pages 1 (fun i ha hb => hne i ha (by omega))

/-- C1 witness: the two general conjuncts applied at concrete inputs (the
3-pages-then-empty section with the default 50-page budget, and the
never-empty section with a budget of 2). -/
theorem scrape_vendor_pagination_witness :
    scrape_vendor_eol_url examplePages 50 = (concatPages examplePages 1 3, 4) ∧
    scrape_vendor_eol_url endlessPages 2 = (concatPages endlessPages 1 2, 2) := by
  constructor
  · exact scrape_vendor_pagination.1 examplePages 50 4 (by decide) (by decide) (by decide)
      (fun i h1 h2 => by interval_cases i <;> decide)
  · exact scrape_vendor_pagination.2.1 endlessPages 2 (by decide)
      (fun i h1 h2 => by interval_cases i <;> decide)

/-- C2 counterexample: `"Jan 1, 1300"` matches the abbreviated month
format `"%b %d, %Y"` textually (month name, valid day, `", "`, 4-digit
year), but its midnight is outside the signed 64-bit-nanosecond range of a
pandas `Timestamp`, so `pd.to_datetime(..., format=..., errors="coerce")`
coerces it to `NaT` in both strict strategies; with the two flexible
fallbacks also failing, `normalize` returns null, not a non-null ISO-8601
string — refuting the claim for format-matching strings in general. -/
theorem normalize_month_format_counterexample :
    matchesMonthNameFormat monthAbbrevs (strip (chars "Jan 1, 1300")) = true ∧
    normalize (fun _ => none) (fun _ => none) (some (chars "Jan 1, 1300")) = none :=
  ⟨rfl, rfl⟩

/-- C2 amended: every raw date string whose stripped text the strict
strategies successfully parse — matching the abbreviated month format
(`"%b %d, %Y"`) or the full month format (`"%B %d, %Y"`) with a date
representable as a pandas nanosecond `Timestamp` (roughly years
1678-2261; outside that range `errors="coerce"` gives `NaT` and the
strict strategies contribute nothing) — is normalized to a non-null
ISO-8601 string ending in the explicit UTC offset `+00:00`; in particular
`"Aug 31, 2022"` and `"August 31, 2022"` both normalize to
`"2022-08-31T00:00:00+00:00"`, whatever the two flexible fallback
strategies do. -/
theorem normalize_month_formats :
    (∀ (fp dp : Str → Option Timestamp) (s : Str),
        ((parseMonthNameDate monthAbbrevs (strip s)).isSome = true ∨
         (parseMonthNameDate monthFulls (strip s)).isSome = true) →
        ∃ r : Str, normalize fp dp (some s) = some r ∧
          ∃ p : Str, r = p ++ chars "+00:00") ∧
    (∀ fp dp : Str → Option Timestamp,
        normalize fp dp (some (chars "Aug 31, 2022"))
          = some (chars "2022-08-31T00:00:00+00:00") ∧
        normalize fp dp (some (chars "August 31, 2022"))
          = some (chars "2022-08-31T00:00:00+00:00")) := by
  constructor
  · intro fp dp s h
    have hstrip : strip s ≠ [] := by
      intro he
      rw [he] at h
      rcases h with h | h
      · exact absurd h (by decide)
      · exact absurd h (by decide)
    have hguard : ¬(s = [] ∨ strip s = []) := by
      rintro (rfl | he)
      · exact hstrip rfl
      · exact hstrip he
    simp only [normalize, parse_date_robust]
    rw [if_neg hguard]
    cases habb : parseMonthNameDate monthAbbrevs (strip s) with
    | some dt =>
      have hn := parseMonthNameDate_naive _ _ _ habb
      show ∃ r : Str, convert_to_utc_iso (some dt) = some r ∧
        ∃ p : Str, r = p ++ chars "+00:00"
      rw [convert_naive dt hn]
      exact ⟨_, rfl, isoformat_utc_suffix _ rfl⟩
    | none =>
      cases hful : parseMonthNameDate monthFulls (strip s) with
      | some dt =>
        have hn := parseMonthNameDate_naive _ _ _ hful
        show ∃ r : Str, convert_to_utc_iso (some dt) = some r ∧
          ∃ p : Str, r = p ++ chars "+00:00"
        rw [convert_naive dt hn]
        exact ⟨_, rfl, isoformat_utc_suffix _ rfl⟩
      | none =>
        rcases h with h | h
        · exact absurd h (by simp [habb])
        · exact absurd h (by simp [hful])
  · intro fp dp
    exact ⟨rfl, rfl⟩

/-- C2 witness: the general conjunct applied to the concrete input
`"Aug 31, 2022"` (with both fallback strategies returning nothing). -/
theorem normalize_month_formats_witness :
    ∃ r : Str, normalize (fun _ => none) (fun _ => none) (some (chars "Aug 31, 2022"))
      = some r ∧ ∃ p : Str, r = p ++ chars "+00:00" :=
  normalize_month_formats.1 (fun _ => none) (fun _ => none) (chars "Aug 31, 2022")
    (Or.inl (by decide))

/-- C8: `normalize` of null, of the empty string, of a whitespace-only
string, and of any string on which all four parsing strategies fail, is
null: the total embedding returns `none` rather than raising or fabricating
a date. -/
theorem normalize_failure_null :
    (∀ fp dp : Str → Option Timestamp, normalize fp dp none = none) ∧
    (∀ fp dp : Str → Option Timestamp, normalize fp dp (some (chars "")) = none) ∧
    (∀ fp dp : Str → Option Timestamp, normalize fp dp (some (chars "   ")) = none) ∧
    (∀ (fp dp : Str → Option Timestamp) (s : Str),
        parseMonthNameDate monthAbbrevs (strip s) = none →
        parseMonthNameDate monthFulls (strip s) = none →
        fp (strip s) = none → dp (strip s) = none →
        normalize fp dp (some s) = none) := by
  refine ⟨fun fp dp => rfl, fun fp dp => rfl, fun fp dp => rfl, ?_⟩
  intro fp dp s h1 h2 h3 h4
  simp only [normalize, parse_date_robust]
  by_cases hguard : s = [] ∨ strip s = []
  · rw [if_pos hguard]
    rfl
  · rw [if_neg hguard, h1, h2, h3, h4]
    rfl

/-- C8 witness: the all-strategies-fail conjunct applied to the concrete
unparseable string `"no such date"` with both fallbacks returning nothing. -/
theorem normalize_failure_null_witness :
    normalize (fun _ => none) (fun _ => none) (some (chars "no such date")) = none :=
  normalize_failure_null.2.2.2 (fun _ => none) (fun _ => none) (chars "no such date")
    (by decide) (by decide) rfl rfl

/-- C3: per-field merge rule of the dedup engine. First conjunct: when a
group's column holds at least one non-null, non-blank value,
`first_non_null` returns exactly the first such value in original order
(the `find?` of the goodness test), and that value is non-null. Second
conjunct: when every value is null or blank, the merged field is null.
Third conjunct: every group key's merged record is in the output, and its
date fields are the `first_non_null` of the group's columns taken in
original row order. Fourth conjunct: merging the duplicate rows
`{CISCO, ModelX, "Aug 1, 2020", ""}` and `{CISCO, ModelX, "", "Sep 1, 2021"}`
(dates normalized before dedup) yields
`{CISCO, ModelX, 2020-08-01T00:00:00+00:00, 2021-09-01T00:00:00+00:00}`. -/
theorem merge_takes_first_non_null :
    (∀ vals : List (Option Str), (∃ v ∈ vals, isGoodVal v = true) →
        ∃ s : Str, vals.find? isGoodVal = some (some s) ∧
          first_non_null vals = some s ∧ strip s ≠ []) ∧
    (∀ vals : List (Option Str), (∀ v ∈ vals, isGoodVal v = false) →
        first_non_null vals = none) ∧
    (∀ (rs : List NRecord) (k : Str × Str), k ∈ groupKeys rs →
        mergeGroup k (group rs k) ∈ remove_duplicates_and_merge rs ∧
        (mergeGroup k (group rs k)).eol_date
          = first_non_null ((group rs k).map (fun r => r.eol_date)) ∧
        (mergeGroup k (group rs k)).eosl_date
          = first_non_null ((group rs k).map (fun r => r.eosl_date))) ∧
    (∀ fp dp : Str → Option Timestamp,
        remove_duplicates_and_merge
          [⟨chars "CISCO", chars "ModelX", normalize fp dp (some (chars "Aug 1, 2020")),
             normalize fp dp (some (chars ""))⟩,
           ⟨chars "CISCO", chars "ModelX", normalize fp dp (some (chars "")),
             normalize fp dp (some (chars "Sep 1, 2021"))⟩]
          = [⟨chars "CISCO", chars "ModelX", some (chars "2020-08-01T00:00:00+00:00"),
               some (chars "2021-09-01T00:00:00+00:00")⟩]) := by
  refine ⟨first_non_null_finds_first, first_non_null_of_all_bad, ?_, fun fp dp => rfl⟩
  intro rs k hk
  exact ⟨List.mem_map_of_mem _ hk, rfl, rfl⟩

/-- C3 witness: the merge rule applied to the concrete column
`[null, "", " iso "]`: the first non-null, non-blank value is picked. -/
theorem merge_takes_first_non_null_witness :
    ∃ s : Str,
      [none, some (chars ""), some (chars "x"), some (chars "y")].find? isGoodVal
        = some (some s) ∧
      first_non_null [none, some (chars ""), some (chars "x"), some (chars "y")]
        = some s ∧ strip s ≠ [] :=
  merge_takes_first_non_null.1 [none, some (chars ""), some (chars "x"), some (chars "y")]
    ⟨some (chars "x"), by decide, by decide⟩

/-- C4: for every input, the dedup/merge output has exactly one record per
distinct (vendor, model) key of the input: its key list is duplicate-free,
and a key is in the output exactly when some input record carries it. -/
theorem dedup_exactly_one_per_key :
    ∀ rs : List NRecord,
      ((remove_duplicates_and_merge rs).map recordKey).Nodup ∧
      ∀ k : Str × Str,
        (k ∈ (remove_duplicates_and_merge rs).map recordKey ↔ k ∈ rs.map recordKey) := by
  intro rs
  rw [map_recordKey_output]
  exact ⟨groupKeys_nodup rs, fun k => mem_groupKeys⟩

/-- C5 counterexample: a parsed document whose only table carries the three
required header labels but no `<tbody>` element makes `fetch_page` raise
(`table.find("tbody")` is `None`, so `.find_all("tr")` is an attribute
error) instead of returning an empty sequence. -/
theorem fetch_page_tbody_missing_raises :
    isOkB (fetch_page [⟨requiredLabels, none⟩]) = false := rfl

/-- C5 amended: table extraction returns the empty sequence, not an error,
when no table matches the three required header labels (first and third
conjuncts); and it never raises when the first matching table has a
`<tbody>` (second conjunct), extracting exactly the rows with at least four
cells (fourth conjunct). A matching table without a `<tbody>`, however,
raises rather than yielding empty-result semantics (see the
counterexample). -/
theorem fetch_page_extraction_spec :
    (∀ doc : List HtmlTable, doc.find? headerMatches = none →
        fetch_page doc = Except.ok []) ∧
    (∀ (doc : List HtmlTable) (t : HtmlTable),
        doc.find? headerMatches = some t → t.tbody ≠ none →
        isOkB (fetch_page doc) = true) ∧
    fetch_page [] = Except.ok [] ∧
    (∀ rows : List (List Str),
        fetch_page [⟨requiredLabels, some rows⟩]
          = Except.ok (rows.filterMap extractRow)) := by
  refine ⟨?_, ?_, rfl, fun rows => rfl⟩
  · intro doc h
    unfold fetch_page
    rw [h]
  · intro doc t hfind htbody
    unfold fetch_page
    rw [hfind]
    cases htb : t.tbody with
    | none => exact absurd htb htbody
    | some trs =>
      show isOkB (match t.tbody with
        | none => Except.error (chars "AttributeError")
        | some trs2 => Except.ok (List.filterMap extractRow trs2)) = true
      rw [htb]
      rfl

/-- C5 witness: the amended theorem's two conditional conjuncts applied to
concrete documents (an empty document, and a matching table with a tbody of
one well-formed row). -/
theorem fetch_page_extraction_spec_witness :
    fetch_page [⟨[chars "Other"], some []⟩] = Except.ok [] ∧
    isOkB (fetch_page [⟨requiredLabels,
      some [[chars "m", chars "a", chars "b", chars "c"]]⟩]) = true := by
  constructor
  · exact fetch_page_extraction_spec.1 [⟨[chars "Other"], some []⟩] (by decide)
  · exact fetch_page_extraction_spec.2.1
      [⟨requiredLabels, some [[chars "m", chars "a", chars "b", chars "c"]]⟩]
      ⟨requiredLabels, some [[chars "m", chars "a", chars "b", chars "c"]]⟩
      (by decide) (by decide)

/-- C6: vendor discovery degrades to the fixed hardcoded fallback list when
the sitemap fetch/parse raises (first conjunct) or when parsing succeeds
but finds zero vendors (second conjunct); and for every behaviour of the
collaborator the result is non-empty and alphabetically sorted (third
conjunct). -/
theorem discover_vendors_robust :
    (∀ e : Str, get_unique_eol_vendors (Except.error e) = fallback_vendors) ∧
    (∀ locs : List (Option Str), collectChildren locs = [] →
        get_unique_eol_vendors (Except.ok locs) = fallback_vendors) ∧
    (∀ sm : Except Str (List (Option Str)),
        get_unique_eol_vendors sm ≠ [] ∧
        List.Pairwise (fun a b => strLeb a b = true) (get_unique_eol_vendors sm)) := by
  have hfb1 : fallback_vendors ≠ [] := by decide
  have hfb2 : List.Pairwise (fun a b => strLeb a b = true) fallback_vendors := by decide
  refine ⟨fun e => rfl, ?_, ?_⟩
  · intro locs h
    show (if (collectChildren locs).isEmpty then fallback_vendors
        else insertionSort strLeb (collectChildren locs)) = fallback_vendors
    rw [h]
    rfl
  · intro sm
    cases sm with
    | error e => exact ⟨hfb1, hfb2⟩
    | ok locs =>
      show (if (collectChildren locs).isEmpty then fallback_vendors
            else insertionSort strLeb (collectChildren locs)) ≠ [] ∧
          List.Pairwise (fun a b => strLeb a b = true)
            (if (collectChildren locs).isEmpty then fallback_vendors
              else insertionSort strLeb (collectChildren locs))
      by_cases hemp : (collectChildren locs).isEmpty
      · rw [if_pos hemp]
        exact ⟨hfb1, hfb2⟩
      · rw [if_neg hemp]
        constructor
        · intro hnil
          have hlen := (insertionSort_perm strLeb (collectChildren locs)).length_eq
          rw [hnil] at hlen
          have hz : collectChildren locs = [] := List.length_eq_zero.mp hlen.symm
          rw [hz] at hemp
          exact hemp rfl
        · exact insertionSort_pairwise strLeb strLeb_total strLeb_trans _

/-- C6 witness: the zero-vendors conjunct applied to a concrete sitemap
whose only location is outside the base path. -/
theorem discover_vendors_robust_witness :
    get_unique_eol_vendors
      (Except.ok [some (chars "https://relutech.com/company/about-us")])
      = fallback_vendors :=
  discover_vendors_robust.2.1 [some (chars "https://relutech.com/company/about-us")]
    (by decide)

/-- C7: for the sitemap listing `.../eol-eosl/cisco/page2`,
`.../eol-eosl/dell/` and one unrelated URL, discovery returns exactly
`["cisco", "dell"]`: only locations under the base path are kept, the
prefix and leading separator stripped, the first remaining path segment
taken, duplicates collapsed through the set, and the result sorted (the
second conjunct adds a duplicate `cisco` page to show the collapse). -/
theorem discover_vendors_example :
    get_unique_eol_vendors (Except.ok exampleSitemapLocs)
      = [chars "cisco", chars "dell"] ∧
    get_unique_eol_vendors (Except.ok exampleSitemapLocsDup)
      = [chars "cisco", chars "dell"] :=
  ⟨rfl, rfl⟩

/-- C9: the dedup/merge operation is idempotent — applied to its own
output it returns that output unchanged. -/
theorem dedup_idempotent :
    ∀ rs : List NRecord,
      remove_duplicates_and_merge (remove_duplicates_and_merge rs)
        = remove_duplicates_and_merge rs := by
  intro rs
  have hfield : ∀ k ∈ groupKeys rs,
      mergeGroup k (group (remove_duplicates_and_merge rs) k)
        = mergeGroup k (group rs k) := by
    intro k hk
    rw [group_output rs k hk]
    have he : mergeGroup k [mergeGroup k (group rs k)]
        = ⟨k.1, k.2,
            first_non_null [first_non_null ((group rs k).map (fun r => r.eol_date))],
            first_non_null [first_non_null ((group rs k).map (fun r => r.eosl_date))]⟩ :=
      rfl
    rw [he, first_non_null_stable, first_non_null_stable]
    rfl
  show (groupKeys (remove_duplicates_and_merge rs)).map
      (fun k => mergeGroup k (group (remove_duplicates_and_merge rs) k))
      = (groupKeys rs).map (fun k => mergeGroup k (group rs k))
  rw [groupKeys_output]
  exact List.map_congr_left hfield

/-- C10: the dedup/merge output is not in the input's arrival order — for
every input it is sorted ascending by the lexicographic (vendor, model)
grouping key (first conjunct); the concrete conjuncts show an input whose
two records come back in the opposite, sorted order. -/
theorem dedup_output_sorted_by_key :
    (∀ rs : List NRecord,
        List.Pairwise (fun a b => keyLE (recordKey a) (recordKey b) = true)
          (remove_duplicates_and_merge rs)) ∧
    remove_duplicates_and_merge [exB, exA] = [exA, exB] ∧
    remove_duplicates_and_merge [exB, exA] ≠ [exB, exA] := by
  refine ⟨?_, rfl, by decide⟩
  intro rs
  unfold remove_duplicates_and_merge
  rw [List.pairwise_map]
  simp only [recordKey_mergeGroup]
  exact groupKeys_pairwise rs

end Relutech
